import Mathlib

set_option maxHeartbeats 1000000

/-!
Shallow embedding of the chat transcript state and the send pipeline of
`src/App.tsx` (the Zentro chat UI).

Modelling conventions:
* JS strings are Lean `String`s; `String.prototype.trim` and
  `String.prototype.split(',')` are modelled by structural recursion on the
  character list (`jsTrim`, `jsSplitComma1`), since the JS operations are
  defined character-wise.
* Message ids are produced in the source as decimal strings of `Date.now()`
  values (`Date.now().toString()`, `(Date.now() + 1).toString()`); since the
  decimal representation of naturals is injective, ids are modelled as the
  underlying `Nat` (the initial message's literal id `'1'` is the numeral `1`).
  `Date` values themselves are modelled as `Nat` milliseconds.
* JS truthiness on the nullable string `selectedImage` (`!selectedImage`,
  `selectedImage ? _ : _`, `selectedImage || undefined`) is modelled by
  `truthyStr` on `Option String` (`none` and `some ""` are falsy).
* The asynchronous send pipeline is modelled as a pure function
  `handleSend : SendEnv → AppState → SendResult`; the `SendEnv` captures the
  external world: the credential, whether session creation
  (`ai.chats.create`) succeeds, whether opening the stream
  (`chat.sendMessageStream`) succeeds, the list of chunks the stream yields,
  whether the stream throws after those chunks, and the two `Date.now()`
  readings (at send entry and inside the catch block). `SendResult` records
  the resulting component state plus the history and message parts actually
  handed to the SDK (`none` when the pipeline failed before the respective
  call).
-/

/-- A web citation record `{uri, title}` from grounding metadata. -/
structure Source where
  uri : String
  title : String
deriving DecidableEq, Repr

/-- One entry of `groundingMetadata.groundingChunks`; `web` is optional. -/
structure GroundingChunk where
  web : Option Source
deriving DecidableEq, Repr

/-- One streamed response chunk: its extracted `text` (optional) and the
optional `candidates[0].groundingMetadata.groundingChunks` array. -/
structure Chunk where
  text : Option String
  groundingChunks : Option (List GroundingChunk)
deriving DecidableEq, Repr

/-- Message role, `'user' | 'bot'` in the source. -/
inductive Role where
  | user
  | bot
deriving DecidableEq, Repr

/-- The `Message` interface of `App.tsx`. -/
structure Message where
  id : Nat
  role : Role
  content : String
  timestamp : Nat
  image : Option String
  sources : Option (List Source)
deriving DecidableEq, Repr

/-- The component state touched by the send pipeline: `messages`, `input`,
`isLoading`, `selectedImage`. -/
structure AppState where
  messages : List Message
  input : String
  isLoading : Bool
  selectedImage : Option String
deriving DecidableEq, Repr

/-- A content part of a history turn or of the outgoing message: either an
`inlineData` part (raw data plus MIME type) or a `text` part. -/
inductive ContentPart where
  | inlineData (data : Option String) (mimeType : String)
  | text (s : String)
deriving DecidableEq, Repr

/-- One serialized history turn `{role, parts}`. -/
structure HistoryTurn where
  role : String
  parts : List ContentPart
deriving DecidableEq, Repr

/-- The external environment of one `handleSend` invocation. -/
structure SendEnv where
  apiKey : Option String
  sessionOk : Bool
  streamInitOk : Bool
  chunks : List Chunk
  streamErrorAfter : Bool
  now : Nat
  errNow : Nat
deriving DecidableEq, Repr

/-- Result of one `handleSend` invocation: the new component state, and the
history / message parts actually passed to the SDK (`none` when the pipeline
failed before the corresponding call was made). -/
structure SendResult where
  state : AppState
  sentHistory : Option (List HistoryTurn)
  sentParts : Option (List ContentPart)
deriving DecidableEq, Repr

/-- JS truthiness of a nullable string: `null`/`undefined` and `""` are falsy. -/
def truthyStr : Option String → Bool
  | none => false
  | some s => s != ""

/-- Characterwise model of `String.prototype.trim`. -/
def jsTrim (s : String) : String :=
  ⟨((s.data.dropWhile Char.isWhitespace).reverse.dropWhile Char.isWhitespace).reverse⟩

/-- Split a character list at every occurrence of `sep` (model of
`String.prototype.split`); `cur` is the reversed current segment. -/
def splitCharAux (sep : Char) : List Char → List Char → List (List Char)
  | [], cur => [cur.reverse]
  | c :: rest, cur =>
    if c = sep then cur.reverse :: splitCharAux sep rest []
    else splitCharAux sep rest (c :: cur)

/-- Model of `s.split(',')[1]`: the part of a data URL after the first comma
(`none` models JS `undefined` when there is no comma). -/
def jsSplitComma1 (s : String) : Option String :=
  ((splitCharAux ',' s.data []).map (fun l => (⟨l⟩ : String)))[1]?

/-- The fixed greeting shown in the initial transcript. -/
def greetingText : String :=
  "Hello! I'm your Gemini-powered assistant. How can I help you today?"

/-- The initial component state: one greeting bot message with id `'1'`. -/
def initialState (t : Nat) : AppState :=
  { messages := [{ id := 1, role := Role.bot, content := greetingText,
                   timestamp := t, image := none, sources := none }],
    input := "", isLoading := false, selectedImage := none }

/-- The fixed apologetic string appended by the catch block. -/
def errorText : String :=
  "I'm sorry, I encountered an error. Please try again later."

/-- The fresh bot message appended by the catch block (its id is
`Date.now().toString()` evaluated inside the catch). -/
def errorMessage (t : Nat) : Message :=
  { id := t, role := Role.bot, content := errorText, timestamp := t,
    image := none, sources := none }

/-- The guard of `handleSend`:
`(!input.trim() && !selectedImage) || isLoading` — when true, the call
returns immediately. -/
def sendBlocked (st : AppState) : Bool :=
  (jsTrim st.input == "" && !truthyStr st.selectedImage) || st.isLoading

/-- The user message constructed at the top of `handleSend`:
`content: input.trim() || (selectedImage ? "Analyze this image" : "")`,
`image: selectedImage || undefined`. -/
def mkUserMessage (env : SendEnv) (st : AppState) : Message :=
  { id := env.now,
    role := Role.user,
    content := if jsTrim st.input == "" then
        (if truthyStr st.selectedImage then "Analyze this image" else "")
      else jsTrim st.input,
    timestamp := env.now,
    image := if truthyStr st.selectedImage then st.selectedImage else none,
    sources := none }

/-- The empty placeholder bot message inserted before the stream starts;
its id is `(Date.now() + 1).toString()`. -/
def mkPlaceholder (env : SendEnv) : Message :=
  { id := env.now + 1, role := Role.bot, content := "", timestamp := env.now,
    image := none, sources := none }

/-- The `messageParts` array built for the current turn: the image part (if
the user message carries an image) followed by the text part. -/
def mkMessageParts (env : SendEnv) (st : AppState) : List ContentPart :=
  (match (mkUserMessage env st).image with
    | some img => [ContentPart.inlineData (jsSplitComma1 img) "image/jpeg"]
    | none => []) ++ [ContentPart.text (mkUserMessage env st).content]

/-- Serialization of one transcript message into a history turn:
role `'bot' ↦ 'model'`, `'user' ↦ 'user'`; parts are the optional
`inlineData` part (`msg.image.split(',')[1]`, MIME fixed to `image/jpeg`)
followed by the `text` part. -/
def serializeMsg (m : Message) : HistoryTurn :=
  { role := if m.role == Role.bot then "model" else "user",
    parts :=
      (match m.image with
        | some img => [ContentPart.inlineData (jsSplitComma1 img) "image/jpeg"]
        | none => []) ++ [ContentPart.text m.content] }

/-- `groundingChunks.filter(c => c.web).map(c => ({uri: c.web!.uri, title: c.web!.title}))`. -/
def extractWebSources (gcs : List GroundingChunk) : List Source :=
  (gcs.filter (fun g => g.web.isSome)).map
    (fun g => g.web.getD { uri := "", title := "" })

/-- Keep the element of `a` at index `i` iff the first index in `a` whose
`uri` matches is `i` itself — the callback of the source's
`filter((v, i, a) => a.findIndex(t => t.uri === v.uri) === i)`. -/
def filterFirstUri (a : List Source) : Nat → List Source → List Source
  | _, [] => []
  | i, v :: rest =>
    if a.findIdx (fun t => t.uri == v.uri) == i then
      v :: filterFirstUri a (i + 1) rest
    else filterFirstUri a (i + 1) rest

/-- `a.filter((v, i, a) => a.findIndex(t => t.uri === v.uri) === i)`:
keep only the first occurrence of every `uri`. -/
def dedupByUri (a : List Source) : List Source :=
  filterFirstUri a 0 a

/-- `sources = [...sources, ...newSources].filter(...)` — the per-chunk merge
of newly extracted sources into the running list. -/
def mergeSources (sources newSources : List Source) : List Source :=
  dedupByUri (sources ++ newSources)

/-- The accumulators of the streaming loop: the running `fullResponse`,
the running `sources` list, and the transcript as last written. -/
structure StreamAcc where
  fullResponse : String
  sources : List Source
  messages : List Message
deriving DecidableEq, Repr

/-- The per-chunk transcript write:
`prev.map(msg => msg.id === botMessageId ? {...msg, content: fullResponse,
sources: sources.length > 0 ? sources : undefined} : msg)`. -/
def chunkUpdate (botMessageId : Nat) (fullResponse : String)
    (sources : List Source) (msgs : List Message) : List Message :=
  msgs.map (fun m =>
    if m.id == botMessageId then
      { m with content := fullResponse,
               sources := if sources.length > 0 then some sources else none }
    else m)

/-- The per-chunk evolution of the running `sources` list: when the chunk has
grounding chunks, merge the extracted web sources; otherwise leave the list
unchanged (the `if (groundingChunks)` guard). -/
def chunkMergeStep (sources : List Source) (c : Chunk) : List Source :=
  match c.groundingChunks with
  | some gcs => mergeSources sources (extractWebSources gcs)
  | none => sources

/-- One iteration of the `for await (const chunk of streamResponse)` loop. -/
def stepChunk (botMessageId : Nat) (acc : StreamAcc) (c : Chunk) : StreamAcc :=
  let fullResponse := acc.fullResponse ++ c.text.getD ""
  let sources := chunkMergeStep acc.sources c
  { fullResponse := fullResponse, sources := sources,
    messages := chunkUpdate botMessageId fullResponse sources acc.messages }

/-- The sources a chunk contributes (empty when `groundingChunks` is absent). -/
def chunkExtract (c : Chunk) : List Source :=
  match c.groundingChunks with
  | some gcs => extractWebSources gcs
  | none => []

/-- The whole `handleSend` pipeline. The `history` serialization reads the
`messages` closure variable, i.e. the transcript as it was *before* the user
message was appended (React state setters do not mutate the captured
binding), hence `st.messages.map serializeMsg`. -/
def handleSend (env : SendEnv) (st : AppState) : SendResult :=
  if sendBlocked st then { state := st, sentHistory := none, sentParts := none }
  else
    let userMessage := mkUserMessage env st
    let st1 : AppState :=
      { messages := st.messages ++ [userMessage], input := "",
        selectedImage := none, isLoading := true }
    match env.apiKey with
    | none =>
      let stE : AppState :=
        { st1 with messages := st1.messages ++ [errorMessage env.errNow], isLoading := false }
      { state := stE, sentHistory := none, sentParts := none }
    | some _ =>
      let history := st.messages.map serializeMsg
      if env.sessionOk then
        let botMessageId := env.now + 1
        let st2 : AppState := { st1 with messages := st1.messages ++ [mkPlaceholder env] }
        let messageParts := mkMessageParts env st
        if env.streamInitOk then
          let finalAcc := env.chunks.foldl (stepChunk botMessageId)
            { fullResponse := "", sources := [], messages := st2.messages }
          if env.streamErrorAfter then
            let stE : AppState :=
              { st2 with messages := finalAcc.messages ++ [errorMessage env.errNow], isLoading := false }
            { state := stE, sentHistory := some history, sentParts := some messageParts }
          else
            let stS : AppState :=
              { st2 with messages := finalAcc.messages, isLoading := false }
            { state := stS, sentHistory := some history, sentParts := some messageParts }
        else
          let stE : AppState :=
            { st2 with messages := st2.messages ++ [errorMessage env.errNow], isLoading := false }
          { state := stE, sentHistory := some history, sentParts := none }
      else
        let stE : AppState :=
          { st1 with messages := st1.messages ++ [errorMessage env.errNow], isLoading := false }
        { state := stE, sentHistory := none, sentParts := none }

/-- The fresh bot message installed by `clearChat`. -/
def clearedMessage (t : Nat) : Message :=
  { id := t, role := Role.bot, content := "Chat cleared. How else can I help you?",
    timestamp := t, image := none, sources := none }

/-- `clearChat`: replace the transcript with a single fresh bot message. -/
def clearChat (t : Nat) (st : AppState) : AppState :=
  { st with messages := [clearedMessage t] }

/-- States reachable from the initial state by the component's operations:
sends (with arbitrary environments), clears, and edits of the pending input
and attached image. -/
inductive Reachable : AppState → Prop
  | init (t : Nat) : Reachable (initialState t)
  | send (env : SendEnv) (st : AppState) :
      Reachable st → Reachable (handleSend env st).state
  | clear (t : Nat) (st : AppState) :
      Reachable st → Reachable (clearChat t st)
  | setInput (s : String) (st : AppState) :
      Reachable st → Reachable { st with input := s }
  | setImage (img : Option String) (st : AppState) :
      Reachable st → Reachable { st with selectedImage := img }

/-- Reference recursion for first-occurrence deduplication: `seen` is the set
of uris already kept; an element is kept iff its uri is new, and then its uri
is added to `seen`. -/
def dedupAux (seen : List String) : List Source → List Source
  | [] => []
  | v :: rest =>
    if v.uri ∈ seen then dedupAux seen rest
    else v :: dedupAux (v.uri :: seen) rest

/-- The intermediate accumulator states of the streaming loop: the state
before any chunk, then the state after each consumed chunk. -/
def streamTrace (bid : Nat) (acc : StreamAcc) : List Chunk → List StreamAcc
  | [] => [acc]
  | c :: cs => acc :: streamTrace bid (stepChunk bid acc c) cs

/-- The three `Date.now()`-derived id values a single send can mint: the user
message id, the placeholder id, and the catch-block error-message id. -/
def sendIds (env : SendEnv) : List Nat :=
  [env.now, env.now + 1, env.errNow]

/-- A running sources list is in normal form when re-deduplicating it changes
nothing. -/
def CleanSources (l : List Source) : Prop :=
  dedupAux [] l = l

theorem dedupAux_congr {s₁ s₂ : List String} (h : ∀ u, u ∈ s₁ ↔ u ∈ s₂) :
    ∀ l : List Source, dedupAux s₁ l = dedupAux s₂ l := by
  intro l
  induction l generalizing s₁ s₂ with
  | nil => rfl
  | cons v rest ih =>
    by_cases hv : v.uri ∈ s₁
    · rw [dedupAux, dedupAux, if_pos hv, if_pos ((h v.uri).mp hv)]
      exact ih h
    · rw [dedupAux, dedupAux, if_neg hv, if_neg (fun hc => hv ((h v.uri).mpr hc))]
      refine congrArg (v :: ·) (ih ?_)
      intro u
      simp only [List.mem_cons]
      exact or_congr Iff.rfl (h u)

theorem findIdx_append_all_false {p : Source → Bool} :
    ∀ xs : List Source, (∀ x ∈ xs, p x = false) →
      ∀ ys : List Source, List.findIdx p (xs ++ ys) = xs.length + List.findIdx p ys := by
  intro xs
  induction xs with
  | nil => intro _ ys; simp
  | cons x xs ih =>
    intro h ys
    have hx : p x = false := h x (List.mem_cons_self x xs)
    rw [List.cons_append, List.findIdx_cons, hx]
    simp only [cond_false]
    rw [ih (fun y hy => h y (List.mem_cons_of_mem x hy)) ys]
    simp only [List.length_cons]
    omega

theorem findIdx_append_found {p : Source → Bool} :
    ∀ xs : List Source, List.findIdx p xs < xs.length →
      ∀ ys : List Source, List.findIdx p (xs ++ ys) = List.findIdx p xs := by
  intro xs
  induction xs with
  | nil => intro h; simp at h
  | cons x xs ih =>
    intro h ys
    rw [List.cons_append, List.findIdx_cons, List.findIdx_cons]
    cases hx : p x with
    | true => simp
    | false =>
      simp only [cond_false]
      rw [List.findIdx_cons, hx] at h
      simp only [cond_false] at h
      simp only [List.length_cons] at h
      rw [ih (by omega) ys]

theorem filterFirstUri_eq :
    ∀ (l acc : List Source),
      filterFirstUri (acc ++ l) acc.length l = dedupAux (acc.map Source.uri) l := by
  intro l
  induction l with
  | nil => intro acc; rfl
  | cons v rest ih =>
    intro acc
    have hform : acc ++ v :: rest = (acc ++ [v]) ++ rest := by simp
    by_cases hv : v.uri ∈ acc.map Source.uri
    · -- some earlier element of `acc` already has this uri: the findIndex test fails
      obtain ⟨t, ht, htu⟩ := List.mem_map.mp hv
      have hlt : List.findIdx (fun t => t.uri == v.uri) acc < acc.length :=
        List.findIdx_lt_length_of_exists ⟨t, ht, by simp [htu]⟩
      have hfi : List.findIdx (fun t => t.uri == v.uri) (acc ++ v :: rest) =
          List.findIdx (fun t => t.uri == v.uri) acc :=
        findIdx_append_found acc hlt (v :: rest)
      have hne : (List.findIdx (fun t => t.uri == v.uri) (acc ++ v :: rest)
          == acc.length) = false := by
        rw [hfi]
        simp only [beq_eq_false_iff_ne]
        omega
      rw [filterFirstUri, hne]
      simp only [Bool.false_eq_true, if_false]
      rw [dedupAux, if_pos hv]
      have := ih (acc ++ [v])
      rw [hform]
      have hlen : acc.length + 1 = (acc ++ [v]).length := by simp
      rw [hlen, this]
      refine dedupAux_congr ?_ rest
      intro u
      simp only [List.map_append, List.map_cons, List.map_nil, List.mem_append,
        List.mem_cons, List.not_mem_nil, or_false]
      constructor
      · rintro (h | h)
        · exact h
        · rw [h]; exact hv
      · exact Or.inl
    · -- fresh uri: the element is its own first occurrence and is kept
      have hall : ∀ x ∈ acc, ((fun t => t.uri == v.uri) x) = false := by
        intro x hx
        simp only [beq_eq_false_iff_ne]
        intro hc
        exact hv (List.mem_map.mpr ⟨x, hx, hc⟩)
      have hfi : List.findIdx (fun t => t.uri == v.uri) (acc ++ v :: rest) =
          acc.length := by
        rw [findIdx_append_all_false acc hall (v :: rest), List.findIdx_cons]
        simp
      rw [filterFirstUri, hfi]
      simp only [beq_self_eq_true, if_true]
      rw [dedupAux, if_neg hv]
      refine congrArg (v :: ·) ?_
      have := ih (acc ++ [v])
      rw [hform]
      have hlen : acc.length + 1 = (acc ++ [v]).length := by simp
      rw [hlen, this]
      refine dedupAux_congr ?_ rest
      intro u
      simp only [List.map_append, List.map_cons, List.map_nil, List.mem_append,
        List.mem_cons, List.not_mem_nil, or_false]
      tauto

theorem dedupByUri_eq_dedupAux (l : List Source) : dedupByUri l = dedupAux [] l := by
  have := filterFirstUri_eq l []
  simpa [dedupByUri] using this

theorem dedupAux_append :
    ∀ (a b : List Source) (seen : List String),
      dedupAux seen (a ++ b) =
        dedupAux seen a ++ dedupAux ((dedupAux seen a).map Source.uri ++ seen) b := by
  intro a
  induction a with
  | nil => intro b seen; simp [dedupAux]
  | cons v a' ih =>
    intro b seen
    by_cases hv : v.uri ∈ seen
    · rw [List.cons_append, dedupAux, if_pos hv, dedupAux, if_pos hv]
      exact ih b seen
    · rw [List.cons_append, dedupAux, if_neg hv, dedupAux, if_neg hv]
      rw [ih b (v.uri :: seen), List.cons_append]
      refine congrArg (v :: ·) (congrArg _ ?_)
      refine dedupAux_congr ?_ b
      intro u
      simp only [List.mem_append, List.mem_cons, List.map_cons]
      tauto

theorem dedupAux_merge_left :
    ∀ (a b : List Source) (seen : List String),
      dedupAux seen (dedupAux seen a ++ b) = dedupAux seen (a ++ b) := by
  intro a
  induction a with
  | nil => intro b seen; simp [dedupAux]
  | cons v a' ih =>
    intro b seen
    by_cases hv : v.uri ∈ seen
    · rw [List.cons_append, dedupAux, if_pos hv, dedupAux, if_pos hv]
      exact ih b seen
    · rw [List.cons_append, dedupAux, if_neg hv, List.cons_append, dedupAux, if_neg hv,
        dedupAux, if_neg hv]
      exact congrArg (v :: ·) (ih b (v.uri :: seen))

theorem dedupAux_idem (a : List Source) (seen : List String) :
    dedupAux seen (dedupAux seen a) = dedupAux seen a := by
  have := dedupAux_merge_left a [] seen
  simpa using this

theorem dedupAux_uri_notin_seen :
    ∀ (l : List Source) (seen : List String) (s : Source),
      s ∈ dedupAux seen l → s.uri ∉ seen := by
  intro l
  induction l with
  | nil => intro seen s h; simp [dedupAux] at h
  | cons v rest ih =>
    intro seen s h
    by_cases hv : v.uri ∈ seen
    · rw [dedupAux, if_pos hv] at h
      exact ih seen s h
    · rw [dedupAux, if_neg hv] at h
      rcases List.mem_cons.mp h with h | h
      · rw [h]; exact hv
      · intro hc
        exact ih (v.uri :: seen) s h (List.mem_cons_of_mem _ hc)

theorem dedupAux_map_uri_nodup :
    ∀ (l : List Source) (seen : List String),
      ((dedupAux seen l).map Source.uri).Nodup := by
  intro l
  induction l with
  | nil => intro seen; simp [dedupAux]
  | cons v rest ih =>
    intro seen
    by_cases hv : v.uri ∈ seen
    · rw [dedupAux, if_pos hv]; exact ih seen
    · rw [dedupAux, if_neg hv]
      rw [List.map_cons, List.nodup_cons]
      constructor
      · intro hc
        obtain ⟨s, hs, hsu⟩ := List.mem_map.mp hc
        have := dedupAux_uri_notin_seen rest (v.uri :: seen) s hs
        rw [hsu] at this
        exact this (List.mem_cons_self _ _)
      · exact ih (v.uri :: seen)

theorem dedupAux_mem_find_first :
    ∀ (l : List Source) (seen : List String) (s : Source),
      s ∈ dedupAux seen l → l.find? (fun t => t.uri == s.uri) = some s := by
  intro l
  induction l with
  | nil => intro seen s h; simp [dedupAux] at h
  | cons v rest ih =>
    intro seen s h
    by_cases hv : v.uri ∈ seen
    · rw [dedupAux, if_pos hv] at h
      have hs : s.uri ∉ seen := dedupAux_uri_notin_seen rest seen s h
      have hne : (v.uri == s.uri) = false := by
        simp only [beq_eq_false_iff_ne]
        intro hc; rw [hc] at hv; exact hs hv
      rw [List.find?_cons, hne]
      exact ih seen s h
    · rw [dedupAux, if_neg hv] at h
      rcases List.mem_cons.mp h with h | h
      · rw [h, List.find?_cons]
        simp
      · have hs : s.uri ∉ v.uri :: seen := dedupAux_uri_notin_seen rest _ s h
        have hne : (v.uri == s.uri) = false := by
          simp only [beq_eq_false_iff_ne]
          intro hc; exact hs (by rw [← hc]; exact List.mem_cons_self _ _)
        rw [List.find?_cons, hne]
        exact ih (v.uri :: seen) s h

theorem mergeSources_eq_dedupAux (a b : List Source) :
    mergeSources a b = dedupAux [] (a ++ b) := by
  rw [mergeSources, dedupByUri_eq_dedupAux]

theorem foldl_chunkMergeStep :
    ∀ (cs : List Chunk) (f : List Source),
      cs.foldl chunkMergeStep (dedupAux [] f) =
        dedupAux [] (f ++ (cs.map chunkExtract).flatten) := by
  intro cs
  induction cs with
  | nil => intro f; simp
  | cons c cs' ih =>
    intro f
    rw [List.foldl_cons]
    cases hg : c.groundingChunks with
    | none =>
      have hstep : chunkMergeStep (dedupAux [] f) c = dedupAux [] f := by
        simp only [chunkMergeStep, hg]
      have hext : chunkExtract c = [] := by simp only [chunkExtract, hg]
      rw [hstep, ih f, List.map_cons, List.flatten_cons, hext, List.nil_append]
    | some gcs =>
      have hstep : chunkMergeStep (dedupAux [] f) c =
          dedupAux [] (f ++ extractWebSources gcs) := by
        simp only [chunkMergeStep, hg]
        rw [mergeSources_eq_dedupAux, dedupAux_merge_left]
      have hext : chunkExtract c = extractWebSources gcs := by simp only [chunkExtract, hg]
      rw [hstep, ih (f ++ extractWebSources gcs), List.map_cons, List.flatten_cons, hext,
        List.append_assoc]

theorem foldl_stepChunk_sources :
    ∀ (cs : List Chunk) (bid : Nat) (acc : StreamAcc),
      (cs.foldl (stepChunk bid) acc).sources = cs.foldl chunkMergeStep acc.sources := by
  intro cs
  induction cs with
  | nil => intro bid acc; rfl
  | cons c cs' ih =>
    intro bid acc
    rw [List.foldl_cons, List.foldl_cons, ih]
    rfl

theorem cleanSources_nil : CleanSources [] := rfl

theorem cleanSources_mergeSources {l : List Source} (h : CleanSources l)
    (ns : List Source) :
    l <+: mergeSources l ns ∧ CleanSources (mergeSources l ns) := by
  constructor
  · rw [mergeSources_eq_dedupAux, dedupAux_append l ns []]
    rw [CleanSources] at h
    rw [h]
    exact List.prefix_append l _
  · rw [CleanSources, mergeSources_eq_dedupAux]
    exact dedupAux_idem (l ++ ns) []

theorem cleanSources_chunkMergeStep {l : List Source} (h : CleanSources l)
    (c : Chunk) :
    l <+: chunkMergeStep l c ∧ CleanSources (chunkMergeStep l c) := by
  cases hg : c.groundingChunks with
  | none =>
    simp only [chunkMergeStep, hg]
    exact ⟨List.prefix_refl l, h⟩
  | some gcs =>
    simp only [chunkMergeStep, hg]
    exact cleanSources_mergeSources h (extractWebSources gcs)

theorem streamTrace_head (bid : Nat) (acc : StreamAcc) (cs : List Chunk) :
    (streamTrace bid acc cs)[0]? = some acc := by
  cases cs <;> simp [streamTrace]

theorem streamTrace_last_index :
    ∀ (cs : List Chunk) (bid : Nat) (acc : StreamAcc),
      (streamTrace bid acc cs)[cs.length]? = some (cs.foldl (stepChunk bid) acc) := by
  intro cs
  induction cs with
  | nil => intro bid acc; rfl
  | cons c cs' ih =>
    intro bid acc
    rw [streamTrace, List.length_cons, List.getElem?_cons_succ, List.foldl_cons]
    exact ih bid (stepChunk bid acc c)

theorem chunkUpdate_ids (bid : Nat) (full : String) (srcs : List Source)
    (msgs : List Message) :
    (chunkUpdate bid full srcs msgs).map Message.id = msgs.map Message.id := by
  rw [chunkUpdate, List.map_map]
  refine List.map_congr_left ?_
  intro m _
  by_cases h : m.id = bid
  · have hc : (m.id == bid) = true := by simp [h]
    rw [Function.comp_apply, if_pos hc]
  · have hc : ¬ ((m.id == bid) = true) := by simp [h]
    rw [Function.comp_apply, if_neg hc]

theorem foldl_stepChunk_ids :
    ∀ (cs : List Chunk) (bid : Nat) (acc : StreamAcc),
      (cs.foldl (stepChunk bid) acc).messages.map Message.id =
        acc.messages.map Message.id := by
  intro cs
  induction cs with
  | nil => intro bid acc; rfl
  | cons c cs' ih =>
    intro bid acc
    rw [List.foldl_cons, ih]
    exact chunkUpdate_ids bid _ _ acc.messages

theorem chunkUpdate_getElem (bid : Nat) (full : String) (srcs : List Source)
    (msgs : List Message) (i : Nat) :
    (chunkUpdate bid full srcs msgs)[i]? =
      msgs[i]?.map (fun m =>
        if m.id == bid then
          { m with content := full,
                   sources := if srcs.length > 0 then some srcs else none }
        else m) := by
  rw [chunkUpdate]
  exact List.getElem?_map _ msgs i

theorem foldl_stepChunk_keep :
    ∀ (cs : List Chunk) (bid : Nat) (acc : StreamAcc) (i : Nat) (m : Message),
      acc.messages[i]? = some m → m.id ≠ bid →
      (cs.foldl (stepChunk bid) acc).messages[i]? = some m := by
  intro cs
  induction cs with
  | nil => intro bid acc i m hm _; exact hm
  | cons c cs' ih =>
    intro bid acc i m hm hne
    rw [List.foldl_cons]
    refine ih bid (stepChunk bid acc c) i m ?_ hne
    show (chunkUpdate bid _ _ acc.messages)[i]? = some m
    rw [chunkUpdate_getElem, hm]
    have hcond : ¬ ((m.id == bid) = true) := by simp [hne]
    rw [Option.map_some', if_neg hcond]

/-- C3: a send request issued while the trimmed input is empty and no image is
attached, or while a send is already in flight (`isLoading`), is a complete
no-op: the returned state is the argument state (transcript, pending input,
pending image and `isLoading` all unchanged, so the flag is never set by this
request), and nothing is sent. -/
theorem c3_send_noop (env : SendEnv) (st : AppState)
    (h : (jsTrim st.input = "" ∧ truthyStr st.selectedImage = false) ∨
      st.isLoading = true) :
    handleSend env st = { state := st, sentHistory := none, sentParts := none } := by
  have hb : sendBlocked st = true := by
    rcases h with ⟨h1, h2⟩ | h3
    · simp [sendBlocked, h1, h2]
    · simp [sendBlocked, h3]
  rw [handleSend, if_pos hb]

theorem c3_send_noop_witness :
    handleSend
        { apiKey := some "k", sessionOk := true, streamInitOk := true,
          chunks := [], streamErrorAfter := false, now := 5, errNow := 6 }
        (initialState 0) =
      { state := initialState 0, sentHistory := none, sentParts := none } :=
  c3_send_noop _ (initialState 0) (Or.inl ⟨by decide, by decide⟩)

/-- C7: the per-chunk update-by-id is a pure functional replacement: the
result has the same length as the input, the id sequence (hence the order)
is unchanged, and entry `i` of the result is entry `i` of the input, replaced
by the updated record exactly when its id equals the target and untouched
otherwise. -/
theorem c7_update_by_id (bid : Nat) (full : String) (srcs : List Source)
    (msgs : List Message) :
    (chunkUpdate bid full srcs msgs).length = msgs.length
    ∧ (chunkUpdate bid full srcs msgs).map Message.id = msgs.map Message.id
    ∧ ∀ i : Nat, (chunkUpdate bid full srcs msgs)[i]? =
        msgs[i]?.map (fun m =>
          if m.id == bid then
            { m with content := full,
                     sources := if srcs.length > 0 then some srcs else none }
          else m) :=
  ⟨by rw [chunkUpdate]; exact List.length_map msgs _,
   chunkUpdate_ids bid full srcs msgs,
   fun i => chunkUpdate_getElem bid full srcs msgs i⟩

/-- C1: folding a chunk stream into the running source list (starting empty)
yields exactly the first-occurrence deduplication of the concatenated
citation records: every uri occurs at most once, the record kept for a uri is
the first-seen one (`find?` on the concatenation returns it, so its title is
the first occurrence's), order is first-seen order; and concretely, two
chunks reporting the same uri with different titles yield the single entry
carrying the first title. -/
theorem c1_citation_dedup (bid : Nat) (msgs : List Message) (cs : List Chunk) :
    (cs.foldl (stepChunk bid)
        { fullResponse := "", sources := [], messages := msgs }).sources =
      dedupByUri ((cs.map chunkExtract).flatten)
    ∧ (((cs.foldl (stepChunk bid)
        { fullResponse := "", sources := [], messages := msgs }).sources).map
          Source.uri).Nodup
    ∧ (∀ s ∈ (cs.foldl (stepChunk bid)
        { fullResponse := "", sources := [], messages := msgs }).sources,
        ((cs.map chunkExtract).flatten).find? (fun t => t.uri == s.uri) = some s)
    ∧ (∀ u t₁ t₂ : String,
        ([Chunk.mk none (some [GroundingChunk.mk (some (Source.mk u t₁))]),
          Chunk.mk none (some [GroundingChunk.mk (some (Source.mk u t₂))])].foldl
            (stepChunk bid)
            { fullResponse := "", sources := [], messages := msgs }).sources =
          [Source.mk u t₁]) := by
  have hsrc : (cs.foldl (stepChunk bid)
      { fullResponse := "", sources := [], messages := msgs }).sources =
      dedupAux [] ((cs.map chunkExtract).flatten) := by
    rw [foldl_stepChunk_sources]
    show cs.foldl chunkMergeStep (dedupAux [] []) = _
    rw [foldl_chunkMergeStep cs []]
    rfl
  refine ⟨?_, ?_, ?_, ?_⟩
  · rw [hsrc, dedupByUri_eq_dedupAux]
  · rw [hsrc]; exact dedupAux_map_uri_nodup _ []
  · intro s hs
    rw [hsrc] at hs
    exact dedupAux_mem_find_first _ [] s hs
  · intro u t₁ t₂
    rw [foldl_stepChunk_sources]
    show List.foldl chunkMergeStep (dedupAux [] []) _ = _
    rw [foldl_chunkMergeStep]
    simp [chunkExtract, extractWebSources, dedupAux]

theorem c1_citation_dedup_witness :
    (([Chunk.mk (some "hi") (some [GroundingChunk.mk (some (Source.mk "u" "A"))])].map
        chunkExtract).flatten).find?
      (fun t => t.uri == (Source.mk "u" "A").uri) = some (Source.mk "u" "A") :=
  (c1_citation_dedup 0 []
    [Chunk.mk (some "hi") (some [GroundingChunk.mk (some (Source.mk "u" "A"))])]).2.2.1
    (Source.mk "u" "A") (by decide)

theorem handleSend_blocked {env : SendEnv} {st : AppState}
    (h : sendBlocked st = true) :
    handleSend env st = { state := st, sentHistory := none, sentParts := none } := by
  rw [handleSend, if_pos h]

theorem handleSend_noKey {env : SendEnv} {st : AppState}
    (h : sendBlocked st = false) (hk : env.apiKey = none) :
    handleSend env st =
      { state :=
          { messages := st.messages ++ [mkUserMessage env st] ++ [errorMessage env.errNow],
            input := "", selectedImage := none, isLoading := false },
        sentHistory := none, sentParts := none } := by
  rw [handleSend, if_neg (by simp [h]), hk]

theorem handleSend_noSession {env : SendEnv} {st : AppState} {k : String}
    (h : sendBlocked st = false) (hk : env.apiKey = some k)
    (hs : env.sessionOk = false) :
    handleSend env st =
      { state :=
          { messages := st.messages ++ [mkUserMessage env st] ++ [errorMessage env.errNow],
            input := "", selectedImage := none, isLoading := false },
        sentHistory := none, sentParts := none } := by
  rw [handleSend, if_neg (by simp [h]), hk]
  simp only [hs]
  rfl

theorem handleSend_noStream {env : SendEnv} {st : AppState} {k : String}
    (h : sendBlocked st = false) (hk : env.apiKey = some k)
    (hs : env.sessionOk = true) (hi : env.streamInitOk = false) :
    handleSend env st =
      { state :=
          { messages := st.messages ++ [mkUserMessage env st] ++ [mkPlaceholder env]
              ++ [errorMessage env.errNow],
            input := "", selectedImage := none, isLoading := false },
        sentHistory := some (st.messages.map serializeMsg), sentParts := none } := by
  rw [handleSend, if_neg (by simp [h]), hk]
  simp only [hs, hi]
  rfl

theorem handleSend_run {env : SendEnv} {st : AppState} {k : String}
    (h : sendBlocked st = false) (hk : env.apiKey = some k)
    (hs : env.sessionOk = true) (hi : env.streamInitOk = true) :
    handleSend env st =
      { state :=
          { messages :=
              (if env.streamErrorAfter then
                (env.chunks.foldl (stepChunk (env.now + 1))
                  { fullResponse := "", sources := [],
                    messages := st.messages ++ [mkUserMessage env st]
                      ++ [mkPlaceholder env] }).messages ++ [errorMessage env.errNow]
              else
                (env.chunks.foldl (stepChunk (env.now + 1))
                  { fullResponse := "", sources := [],
                    messages := st.messages ++ [mkUserMessage env st]
                      ++ [mkPlaceholder env] }).messages),
            input := "", selectedImage := none, isLoading := false },
        sentHistory := some (st.messages.map serializeMsg),
        sentParts := some (mkMessageParts env st) } := by
  rw [handleSend, if_neg (by simp [h]), hk]
  simp only [hs, hi]
  cases he : env.streamErrorAfter <;> rfl

theorem sendBlocked_parts {st : AppState} (h : sendBlocked st = false) :
    st.isLoading = false ∧
      (jsTrim st.input = "" → truthyStr st.selectedImage = true) := by
  rw [sendBlocked, Bool.or_eq_false_iff, Bool.and_eq_false_iff] at h
  refine ⟨h.2, fun he => ?_⟩
  rcases h.1 with h1 | h1
  · rw [beq_eq_false_iff_ne] at h1
    exact absurd he h1
  · rwa [Bool.not_eq_false'] at h1

theorem mkUserMessage_content_ne (env : SendEnv) {st : AppState}
    (h : sendBlocked st = false) : (mkUserMessage env st).content ≠ "" := by
  obtain ⟨-, himp⟩ := sendBlocked_parts h
  show (if jsTrim st.input == "" then _ else _) ≠ ""
  by_cases he : jsTrim st.input = ""
  · rw [if_pos (by simp [he] : (jsTrim st.input == "") = true),
      if_pos (himp he)]
    decide
  · rw [if_neg (by simp [he])]
    exact he

theorem getElem_append_self (xs : List Message) (u : Message) (rest : List Message) :
    (xs ++ u :: rest)[xs.length]? = some u := by
  rw [List.getElem?_append_right (Nat.le_refl xs.length), Nat.sub_self]
  simp

theorem serializeMsg_role (m : Message) :
    (serializeMsg m).role = if m.role = Role.bot then "model" else "user" := by
  cases hr : m.role <;> simp [serializeMsg, hr]

/-- C5: when the API credential is absent the send fails before any network
call: nothing is handed to the SDK, the transcript gains exactly two messages
— the user message and the fixed-error assistant message, both with non-empty
content, so no empty placeholder is inserted — and the loading flag ends
cleared. -/
theorem c5_missing_credential (env : SendEnv) (st : AppState)
    (h : sendBlocked st = false) (hk : env.apiKey = none) :
    (handleSend env st).state.messages =
      st.messages ++ [mkUserMessage env st, errorMessage env.errNow]
    ∧ (handleSend env st).sentHistory = none
    ∧ (handleSend env st).sentParts = none
    ∧ (handleSend env st).state.isLoading = false
    ∧ (mkUserMessage env st).role = Role.user
    ∧ (errorMessage env.errNow).role = Role.bot
    ∧ (errorMessage env.errNow).content = errorText
    ∧ (mkUserMessage env st).content ≠ ""
    ∧ (errorMessage env.errNow).content ≠ "" := by
  rw [handleSend_noKey h hk]
  exact ⟨by simp, rfl, rfl, rfl, rfl, rfl, rfl,
    mkUserMessage_content_ne env h, (by decide : errorText ≠ "")⟩

theorem c5_missing_credential_witness :
    sendBlocked { initialState 0 with input := "hi" } = false ∧
      (handleSend
          { apiKey := none, sessionOk := true, streamInitOk := true,
            chunks := [], streamErrorAfter := false, now := 5, errNow := 6 }
          { initialState 0 with input := "hi" }).sentHistory = none :=
  ⟨by decide,
   (c5_missing_credential
      { apiKey := none, sessionOk := true, streamInitOk := true,
        chunks := [], streamErrorAfter := false, now := 5, errNow := 6 }
      { initialState 0 with input := "hi" } (by decide) rfl).2.1⟩

/-- C2: the history handed to the model session is exactly the serialization
of the transcript as it was before the current turn (the just-appended user
message is excluded): same length and order as the prior transcript, bot
turns tagged "model" and user turns "user", and each turn's parts are the
stripped image part (MIME fixed to image/jpeg) if the message carries one,
followed by its text part. -/
theorem c2_history_serialization (env : SendEnv) (st : AppState) (k : String)
    (h : sendBlocked st = false) (hk : env.apiKey = some k)
    (hs : env.sessionOk = true) :
    (handleSend env st).sentHistory = some (st.messages.map serializeMsg)
    ∧ (st.messages.map serializeMsg).length = st.messages.length
    ∧ (∀ i : Nat, ((st.messages.map serializeMsg)[i]?).map HistoryTurn.role =
        (st.messages[i]?).map
          (fun m => if m.role = Role.bot then "model" else "user"))
    ∧ (∀ i : Nat, ((st.messages.map serializeMsg)[i]?).map HistoryTurn.parts =
        (st.messages[i]?).map (fun m =>
          (match m.image with
            | some img => [ContentPart.inlineData (jsSplitComma1 img) "image/jpeg"]
            | none => []) ++ [ContentPart.text m.content])) := by
  refine ⟨?_, List.length_map st.messages serializeMsg, ?_, ?_⟩
  · cases hi : env.streamInitOk
    · rw [handleSend_noStream h hk hs hi]
    · rw [handleSend_run h hk hs hi]
  · intro i
    rw [List.getElem?_map]
    cases st.messages[i]? with
    | none => rfl
    | some m => simp [serializeMsg_role]
  · intro i
    rw [List.getElem?_map]
    cases st.messages[i]? with
    | none => rfl
    | some m => rfl

theorem c2_history_serialization_witness :
    sendBlocked { initialState 0 with input := "hi" } = false ∧
      (handleSend
          { apiKey := some "k", sessionOk := true, streamInitOk := true,
            chunks := [], streamErrorAfter := false, now := 5, errNow := 6 }
          { initialState 0 with input := "hi" }).sentHistory =
        some (({ initialState 0 with input := "hi" } : AppState).messages.map
          serializeMsg) :=
  ⟨by decide,
   (c2_history_serialization
      { apiKey := some "k", sessionOk := true, streamInitOk := true,
        chunks := [], streamErrorAfter := false, now := 5, errNow := 6 }
      { initialState 0 with input := "hi" } "k" (by decide) rfl rfl).1⟩

/-- C9: an image-only send (trimmed input empty, image attached, not already
loading) appends a user message whose content is the default placeholder
string "Analyze this image" with the image attached; the message sits at the
position right after the prior transcript on every pipeline path, and when
the streaming request is issued, its parts are the image part followed by a
text part carrying that same placeholder string. -/
theorem c9_image_only_send (env : SendEnv) (st : AppState)
    (h1 : jsTrim st.input = "") (h2 : truthyStr st.selectedImage = true)
    (h3 : st.isLoading = false) :
    (mkUserMessage env st).content = "Analyze this image"
    ∧ (mkUserMessage env st).image = st.selectedImage
    ∧ (handleSend env st).state.messages[st.messages.length]? =
        some (mkUserMessage env st)
    ∧ (∀ k : String, env.apiKey = some k → env.sessionOk = true →
        env.streamInitOk = true →
        (handleSend env st).sentParts = some
          ((match st.selectedImage with
            | some img => [ContentPart.inlineData (jsSplitComma1 img) "image/jpeg"]
            | none => []) ++ [ContentPart.text "Analyze this image"])) := by
  have hb : sendBlocked st = false := by
    simp [sendBlocked, h1, h2, h3]
  have hcontent : (mkUserMessage env st).content = "Analyze this image" := by
    simp [mkUserMessage, h1, h2]
  have himage : (mkUserMessage env st).image = st.selectedImage := by
    simp [mkUserMessage, h2]
  refine ⟨hcontent, himage, ?_, ?_⟩
  · -- the user message is at index `st.messages.length` on every path
    cases hk : env.apiKey with
    | none =>
      rw [handleSend_noKey hb hk]
      show (st.messages ++ [mkUserMessage env st] ++ [errorMessage env.errNow])[st.messages.length]? = _
      rw [List.append_assoc]
      exact getElem_append_self st.messages (mkUserMessage env st) _
    | some k =>
      cases hs : env.sessionOk with
      | false =>
        rw [handleSend_noSession hb hk hs]
        show (st.messages ++ [mkUserMessage env st] ++ [errorMessage env.errNow])[st.messages.length]? = _
        rw [List.append_assoc]
        exact getElem_append_self st.messages (mkUserMessage env st) _
      | true =>
        cases hi : env.streamInitOk with
        | false =>
          rw [handleSend_noStream hb hk hs hi]
          show (st.messages ++ [mkUserMessage env st] ++ [mkPlaceholder env]
            ++ [errorMessage env.errNow])[st.messages.length]? = _
          rw [List.append_assoc, List.append_assoc]
          exact getElem_append_self st.messages (mkUserMessage env st) _
        | true =>
          rw [handleSend_run hb hk hs hi]
          have hbase : (st.messages ++ [mkUserMessage env st]
              ++ [mkPlaceholder env])[st.messages.length]? =
              some (mkUserMessage env st) := by
            rw [List.append_assoc]
            exact getElem_append_self st.messages (mkUserMessage env st) _
          have hkeep : ((env.chunks.foldl (stepChunk (env.now + 1))
              { fullResponse := "", sources := [],
                messages := st.messages ++ [mkUserMessage env st]
                  ++ [mkPlaceholder env] }).messages)[st.messages.length]? =
              some (mkUserMessage env st) := by
            refine foldl_stepChunk_keep env.chunks (env.now + 1) _
              st.messages.length (mkUserMessage env st) hbase ?_
            show env.now ≠ env.now + 1
            exact (Nat.succ_ne_self env.now).symm
          cases he : env.streamErrorAfter with
          | false => simpa using hkeep
          | true =>
            have hlen : st.messages.length <
                ((env.chunks.foldl (stepChunk (env.now + 1))
                  { fullResponse := "", sources := [],
                    messages := st.messages ++ [mkUserMessage env st]
                      ++ [mkPlaceholder env] }).messages).length := by
              have hids := foldl_stepChunk_ids env.chunks (env.now + 1)
                { fullResponse := "", sources := [],
                  messages := st.messages ++ [mkUserMessage env st]
                    ++ [mkPlaceholder env] }
              have : ((env.chunks.foldl (stepChunk (env.now + 1))
                  { fullResponse := "", sources := [],
                    messages := st.messages ++ [mkUserMessage env st]
                      ++ [mkPlaceholder env] }).messages).length =
                  (st.messages ++ [mkUserMessage env st]
                    ++ [mkPlaceholder env]).length := by
                have h1 := congrArg List.length hids
                rwa [List.length_map, List.length_map] at h1
              rw [this]
              simp
            simp only [he, if_true]
            rw [List.getElem?_append, if_pos hlen]
            exact hkeep
  · intro k hk hs hi
    rw [handleSend_run hb hk hs hi]
    show some (mkMessageParts env st) = _
    rw [mkMessageParts, himage, hcontent]

theorem c9_image_only_send_witness :
    jsTrim "" = "" ∧ truthyStr (some "data:image/png;base64,AAA") = true ∧
      (mkUserMessage
        { apiKey := some "k", sessionOk := true, streamInitOk := true,
          chunks := [], streamErrorAfter := false, now := 5, errNow := 6 }
        { messages := (initialState 0).messages, input := "",
          isLoading := false,
          selectedImage := some "data:image/png;base64,AAA" }).content =
        "Analyze this image" :=
  ⟨by decide, by decide,
   (c9_image_only_send
      { apiKey := some "k", sessionOk := true, streamInitOk := true,
        chunks := [], streamErrorAfter := false, now := 5, errNow := 6 }
      { messages := (initialState 0).messages, input := "",
        isLoading := false,
        selectedImage := some "data:image/png;base64,AAA" }
      (by decide) (by decide) rfl).1⟩

theorem foldl_stepChunk_length (cs : List Chunk) (bid : Nat) (acc : StreamAcc) :
    (cs.foldl (stepChunk bid) acc).messages.length = acc.messages.length := by
  have h := congrArg List.length (foldl_stepChunk_ids cs bid acc)
  rwa [List.length_map, List.length_map] at h

theorem nodup_append_of (old new : List Nat) (h1 : old.Nodup) (h2 : new.Nodup)
    (h3 : ∀ i ∈ new, i ∉ old) : (old ++ new).Nodup := by
  rw [List.nodup_append]
  exact ⟨h1, h2, fun a ha hb => h3 a hb ha⟩

/-- C4: error handling of the send pipeline. On the guarded early exit the
state is returned untouched (so this request never sets the flag); whenever a
send actually runs, the loading flag is false on every exit path; and on
every failure path the pipeline appends a fresh assistant message carrying
the fixed apologetic string to whatever transcript it had built at that
point — in particular an already-inserted placeholder is left in place
(still carrying its id, right where it was), neither removed nor repurposed
for the error text. -/
theorem c4_error_handling (env : SendEnv) (st : AppState) :
    (sendBlocked st = true →
      handleSend env st = { state := st, sentHistory := none, sentParts := none })
    ∧ (sendBlocked st = false → (handleSend env st).state.isLoading = false)
    ∧ (sendBlocked st = false → env.apiKey = none →
        (handleSend env st).state.messages =
          st.messages ++ [mkUserMessage env st, errorMessage env.errNow])
    ∧ (∀ k : String, sendBlocked st = false → env.apiKey = some k →
        env.sessionOk = false →
        (handleSend env st).state.messages =
          st.messages ++ [mkUserMessage env st, errorMessage env.errNow])
    ∧ (∀ k : String, sendBlocked st = false → env.apiKey = some k →
        env.sessionOk = true → env.streamInitOk = false →
        (handleSend env st).state.messages =
          st.messages ++ [mkUserMessage env st, mkPlaceholder env,
            errorMessage env.errNow]
        ∧ (mkPlaceholder env).content = "" ∧ (mkPlaceholder env).role = Role.bot)
    ∧ (∀ k : String, sendBlocked st = false → env.apiKey = some k →
        env.sessionOk = true → env.streamInitOk = true →
        env.streamErrorAfter = true →
        (handleSend env st).state.messages =
          (env.chunks.foldl (stepChunk (env.now + 1))
            { fullResponse := "", sources := [],
              messages := st.messages ++ [mkUserMessage env st]
                ++ [mkPlaceholder env] }).messages ++ [errorMessage env.errNow]
        ∧ ((env.chunks.foldl (stepChunk (env.now + 1))
            { fullResponse := "", sources := [],
              messages := st.messages ++ [mkUserMessage env st]
                ++ [mkPlaceholder env] }).messages).map Message.id =
            st.messages.map Message.id ++ [env.now, env.now + 1]
        ∧ (errorMessage env.errNow).content = errorText
        ∧ (errorMessage env.errNow).role = Role.bot) := by
  refine ⟨fun hb => handleSend_blocked hb, ?_, ?_, ?_, ?_, ?_⟩
  · -- the flag is cleared on every non-blocked exit path
    intro h
    cases hk : env.apiKey with
    | none => rw [handleSend_noKey h hk]
    | some k =>
      cases hs : env.sessionOk with
      | false => rw [handleSend_noSession h hk hs]
      | true =>
        cases hi : env.streamInitOk with
        | false => rw [handleSend_noStream h hk hs hi]
        | true => rw [handleSend_run h hk hs hi]
  · intro h hk
    rw [handleSend_noKey h hk]
    simp
  · intro k h hk hs
    rw [handleSend_noSession h hk hs]
    simp
  · intro k h hk hs hi
    rw [handleSend_noStream h hk hs hi]
    refine ⟨by simp, rfl, rfl⟩
  · intro k h hk hs hi he
    rw [handleSend_run h hk hs hi]
    refine ⟨by simp [he], ?_, rfl, rfl⟩
    rw [foldl_stepChunk_ids]
    simp [mkUserMessage, mkPlaceholder]

theorem c4_error_handling_witness :
    sendBlocked { initialState 0 with input := "hi" } = false ∧
      (handleSend
          { apiKey := none, sessionOk := true, streamInitOk := true,
            chunks := [], streamErrorAfter := false, now := 5, errNow := 6 }
          { initialState 0 with input := "hi" }).state.isLoading = false :=
  ⟨by decide,
   (c4_error_handling
      { apiKey := none, sessionOk := true, streamInitOk := true,
        chunks := [], streamErrorAfter := false, now := 5, errNow := 6 }
      { initialState 0 with input := "hi" }).2.1 (by decide)⟩

theorem handleSend_messages_ne_nil {env : SendEnv} {st : AppState}
    (h : st.messages ≠ []) : (handleSend env st).state.messages ≠ [] := by
  cases hb : sendBlocked st with
  | true => rw [handleSend_blocked hb]; exact h
  | false =>
    cases hk : env.apiKey with
    | none => rw [handleSend_noKey hb hk]; simp
    | some k =>
      cases hs : env.sessionOk with
      | false => rw [handleSend_noSession hb hk hs]; simp
      | true =>
        cases hi : env.streamInitOk with
        | false => rw [handleSend_noStream hb hk hs hi]; simp
        | true =>
          rw [handleSend_run hb hk hs hi]
          cases he : env.streamErrorAfter with
          | true => simp
          | false =>
            simp only [Bool.false_eq_true, if_false]
            have hlen := foldl_stepChunk_length env.chunks (env.now + 1)
              { fullResponse := "", sources := [],
                messages := st.messages ++ [mkUserMessage env st]
                  ++ [mkPlaceholder env] }
            intro hc
            rw [hc] at hlen
            simp at hlen

/-- C10: the transcript is never empty in any reachable state — the initial
state holds the single greeting message, sends only append or replace
in place, and clear installs a single fresh message — so the UI's access to
the last message is always defined. -/
theorem c10_transcript_nonempty (st : AppState) (h : Reachable st) :
    st.messages ≠ [] ∧ st.messages.getLast?.isSome := by
  have hne : st.messages ≠ [] := by
    induction h with
    | init t => simp [initialState]
    | send env st' hr ih => exact handleSend_messages_ne_nil ih
    | clear t st' hr ih => simp [clearChat]
    | setInput s st' hr ih => exact ih
    | setImage img st' hr ih => exact ih
  exact ⟨hne, List.getLast?_isSome.mpr hne⟩

theorem c10_transcript_nonempty_witness :
    (initialState 0).messages ≠ [] ∧ (initialState 0).messages.getLast?.isSome :=
  c10_transcript_nonempty (initialState 0) (Reachable.init 0)

/-- C8 (as stated) is false: ids are minted from `Date.now()` readings and
nothing prevents two mints from reading the same millisecond. A send issued
with the credential missing mints the user-message id and the catch-block
error-message id from clock readings that may coincide, producing a
reachable transcript with a duplicated id. -/
theorem c8_unique_ids_counterexample :
    Reachable (handleSend
        { apiKey := none, sessionOk := true, streamInitOk := true,
          chunks := [], streamErrorAfter := false, now := 7, errNow := 7 }
        { initialState 0 with input := "hi" }).state
    ∧ ¬ (((handleSend
        { apiKey := none, sessionOk := true, streamInitOk := true,
          chunks := [], streamErrorAfter := false, now := 7, errNow := 7 }
        { initialState 0 with input := "hi" }).state.messages.map
          Message.id).Nodup) :=
  ⟨Reachable.send _ _ (Reachable.setInput "hi" _ (Reachable.init 0)), by decide⟩

/-- C8 (amended): ids never change — the id sequence of the prior transcript
survives every send as a prefix, in order — and ids are unique provided the
`Date.now()`-derived values a send can mint (`now`, `now + 1`, `errNow`) are
pairwise distinct and do not already occur in the transcript. -/
theorem c8_unique_ids_amended (env : SendEnv) (st : AppState)
    (h1 : (st.messages.map Message.id).Nodup)
    (h2 : (sendIds env).Nodup)
    (h3 : ∀ i ∈ sendIds env, i ∉ st.messages.map Message.id) :
    ((handleSend env st).state.messages.map Message.id).Nodup
    ∧ st.messages.map Message.id <+:
        (handleSend env st).state.messages.map Message.id := by
  have h2r := h2
  have hpair : env.now ≠ env.now + 1 ∧ env.now ≠ env.errNow ∧
      env.now + 1 ≠ env.errNow := by
    rw [sendIds] at h2
    rcases List.nodup_cons.mp h2 with ⟨ha, h2'⟩
    rcases List.nodup_cons.mp h2' with ⟨hb', -⟩
    refine ⟨by omega, ?_, ?_⟩
    · exact fun hc => ha (by simp [hc])
    · exact fun hc => hb' (by simp [hc])
  have hnow : env.now ∉ st.messages.map Message.id :=
    h3 env.now (by simp [sendIds])
  have hnow1 : env.now + 1 ∉ st.messages.map Message.id :=
    h3 (env.now + 1) (by simp [sendIds])
  have herr : env.errNow ∉ st.messages.map Message.id :=
    h3 env.errNow (by simp [sendIds])
  cases hb : sendBlocked st with
  | true =>
    rw [handleSend_blocked hb]
    exact ⟨h1, List.prefix_refl _⟩
  | false =>
    cases hk : env.apiKey with
    | none =>
      rw [handleSend_noKey hb hk]
      have hids : ((st.messages ++ [mkUserMessage env st]
          ++ [errorMessage env.errNow]).map Message.id) =
          st.messages.map Message.id ++ [env.now, env.errNow] := by
        simp [mkUserMessage, errorMessage]
      show ((st.messages ++ [mkUserMessage env st]
          ++ [errorMessage env.errNow]).map Message.id).Nodup ∧ _ <+: _
      rw [hids]
      refine ⟨nodup_append_of _ _ h1 ?_ ?_, List.prefix_append _ _⟩
      · simp [hpair.2.1]
      · intro i hi
        rcases List.mem_cons.mp hi with hc | hc
        · rw [hc]; exact hnow
        · rw [List.mem_singleton.mp hc]; exact herr
    | some k =>
      cases hs : env.sessionOk with
      | false =>
        rw [handleSend_noSession hb hk hs]
        have hids : ((st.messages ++ [mkUserMessage env st]
            ++ [errorMessage env.errNow]).map Message.id) =
            st.messages.map Message.id ++ [env.now, env.errNow] := by
          simp [mkUserMessage, errorMessage]
        show ((st.messages ++ [mkUserMessage env st]
            ++ [errorMessage env.errNow]).map Message.id).Nodup ∧ _ <+: _
        rw [hids]
        refine ⟨nodup_append_of _ _ h1 ?_ ?_, List.prefix_append _ _⟩
        · simp [hpair.2.1]
        · intro i hi
          rcases List.mem_cons.mp hi with hc | hc
          · rw [hc]; exact hnow
          · rw [List.mem_singleton.mp hc]; exact herr
      | true =>
        cases hi : env.streamInitOk with
        | false =>
          rw [handleSend_noStream hb hk hs hi]
          have hids : ((st.messages ++ [mkUserMessage env st]
              ++ [mkPlaceholder env] ++ [errorMessage env.errNow]).map
                Message.id) =
              st.messages.map Message.id ++ [env.now, env.now + 1, env.errNow] := by
            simp [mkUserMessage, mkPlaceholder, errorMessage]
          show ((st.messages ++ [mkUserMessage env st]
              ++ [mkPlaceholder env] ++ [errorMessage env.errNow]).map
                Message.id).Nodup ∧ _ <+: _
          rw [hids]
          refine ⟨nodup_append_of _ _ h1 ?_ ?_, List.prefix_append _ _⟩
          · exact h2
          · exact h3
        | true =>
          rw [handleSend_run hb hk hs hi]
          have hfold : ((env.chunks.foldl (stepChunk (env.now + 1))
              { fullResponse := "", sources := [],
                messages := st.messages ++ [mkUserMessage env st]
                  ++ [mkPlaceholder env] }).messages).map Message.id =
              st.messages.map Message.id ++ [env.now, env.now + 1] := by
            rw [foldl_stepChunk_ids]
            simp [mkUserMessage, mkPlaceholder]
          cases he : env.streamErrorAfter with
          | false =>
            simp only [Bool.false_eq_true, if_false]
            show (((env.chunks.foldl (stepChunk (env.now + 1))
                { fullResponse := "", sources := [],
                  messages := st.messages ++ [mkUserMessage env st]
                    ++ [mkPlaceholder env] }).messages).map Message.id).Nodup ∧ _
            rw [hfold]
            refine ⟨nodup_append_of _ _ h1 ?_ ?_, List.prefix_append _ _⟩
            · simp [hpair.1]
            · intro i hmem
              rcases List.mem_cons.mp hmem with hc | hc
              · rw [hc]; exact hnow
              · rw [List.mem_singleton.mp hc]; exact hnow1
          | true =>
            simp only [if_true]
            show ((((env.chunks.foldl (stepChunk (env.now + 1))
                { fullResponse := "", sources := [],
                  messages := st.messages ++ [mkUserMessage env st]
                    ++ [mkPlaceholder env] }).messages)
                  ++ [errorMessage env.errNow]).map Message.id).Nodup ∧ _
            rw [List.map_append, hfold]
            have herrid : ([errorMessage env.errNow].map Message.id) = [env.errNow] := by
              simp [errorMessage]
            rw [herrid, List.append_assoc]
            have hlist : ([env.now, env.now + 1] ++ [env.errNow] : List Nat) =
                sendIds env := by simp [sendIds]
            rw [hlist]
            refine ⟨nodup_append_of _ _ h1 ?_ ?_, List.prefix_append _ _⟩
            · exact h2r
            · exact h3

theorem c8_unique_ids_amended_witness :
    ((({ initialState 0 with input := "hi" } : AppState).messages.map
        Message.id).Nodup) ∧
      ((handleSend
          { apiKey := some "k", sessionOk := true, streamInitOk := true,
            chunks := [], streamErrorAfter := false, now := 5, errNow := 9 }
          { initialState 0 with input := "hi" }).state.messages.map
            Message.id).Nodup :=
  ⟨by decide,
   (c8_unique_ids_amended
      { apiKey := some "k", sessionOk := true, streamInitOk := true,
        chunks := [], streamErrorAfter := false, now := 5, errNow := 9 }
      { initialState 0 with input := "hi" }
      (by decide) (by decide) (by decide)).1⟩

theorem streamTrace_adjacent :
    ∀ (cs : List Chunk) (bid : Nat) (acc : StreamAcc) (i : Nat) (c : Chunk)
      (s s' : StreamAcc),
      CleanSources acc.sources →
      cs[i]? = some c →
      (streamTrace bid acc cs)[i]? = some s →
      (streamTrace bid acc cs)[i + 1]? = some s' →
      s'.fullResponse = s.fullResponse ++ c.text.getD ""
      ∧ s.sources <+: s'.sources
      ∧ s'.messages = chunkUpdate bid s'.fullResponse s'.sources s.messages := by
  intro cs
  induction cs with
  | nil =>
    intro bid acc i c s s' _ hc _ _
    simp at hc
  | cons c0 cs' ih =>
    intro bid acc i c s s' hclean hc hs hs'
    cases i with
    | zero =>
      rw [List.getElem?_cons_zero] at hc
      rw [streamTrace, List.getElem?_cons_zero] at hs
      rw [streamTrace, List.getElem?_cons_succ, streamTrace_head] at hs'
      injection hc with hc
      injection hs with hs
      injection hs' with hs'
      subst hc
      subst hs
      subst hs'
      refine ⟨rfl, ?_, rfl⟩
      exact (cleanSources_chunkMergeStep hclean c0).1
    | succ n =>
      rw [List.getElem?_cons_succ] at hc
      rw [streamTrace, List.getElem?_cons_succ] at hs
      rw [streamTrace, List.getElem?_cons_succ] at hs'
      exact ih bid (stepChunk bid acc c0) n c s s'
        ((cleanSources_chunkMergeStep hclean c0).2) hc hs hs'

/-- C6: during streaming the values written into the placeholder grow
monotonically: the loop-state trace starts with empty accumulated content;
after each chunk the accumulated content equals the previous content extended
by exactly that chunk's text; the running sources list extends the previous
one at the end (entries are appended, never removed); the transcript written
after each chunk is the update-by-id of the previous transcript with those
values; and the final trace state is exactly the fold the pipeline computes. -/
theorem c6_streaming_monotone (bid : Nat) (msgs : List Message)
    (cs : List Chunk) :
    (streamTrace bid { fullResponse := "", sources := [], messages := msgs }
        cs)[0]? =
      some { fullResponse := "", sources := [], messages := msgs }
    ∧ (streamTrace bid { fullResponse := "", sources := [], messages := msgs }
        cs)[cs.length]? =
        some (cs.foldl (stepChunk bid)
          { fullResponse := "", sources := [], messages := msgs })
    ∧ ∀ (i : Nat) (c : Chunk) (s s' : StreamAcc),
        cs[i]? = some c →
        (streamTrace bid { fullResponse := "", sources := [], messages := msgs }
          cs)[i]? = some s →
        (streamTrace bid { fullResponse := "", sources := [], messages := msgs }
          cs)[i + 1]? = some s' →
        s'.fullResponse = s.fullResponse ++ c.text.getD ""
        ∧ s.sources <+: s'.sources
        ∧ s'.messages = chunkUpdate bid s'.fullResponse s'.sources s.messages := by
  refine ⟨streamTrace_head bid _ cs, streamTrace_last_index cs bid _, ?_⟩
  intro i c s s' hc hs hs'
  exact streamTrace_adjacent cs bid _ i c s s' cleanSources_nil hc hs hs'

theorem c6_streaming_monotone_witness :
    (StreamAcc.mk "Hi" [] []).fullResponse =
      (StreamAcc.mk "" [] []).fullResponse ++
        (Chunk.mk (some "Hi") none).text.getD "" :=
  ((c6_streaming_monotone 9 [] [Chunk.mk (some "Hi") none]).2.2 0
    (Chunk.mk (some "Hi") none) (StreamAcc.mk "" [] [])
    (StreamAcc.mk "Hi" [] []) (by decide) (by decide) (by decide)).1
